/-
Verification of the MIDAS (mixed-data sampling) transformer of the darts
repository, `darts/dataprocessing/transformers/midas.py`.

The development shallowly embeds the transformer's data flow:

* timestamps (`Ts`) are either calendar dates (month index relative to
  2020-01 plus a 1-based day of month) or linear instants (milliseconds,
  for tick frequencies such as seconds and minutes);
* `Freq` is the universe of pandas offset rules the transformer touches:
  month end `M`, quarter end `Q-<MON>`, quarter start `QS-<MON>`, day `D`,
  hour `H`, (multiples of) minutes `T`, second `S`, millisecond `L`;
* `TimeSeries` mirrors the darts container as used by the transformer:
  a datetime index, one row of optional values per timestamp (a missing
  value / NaN is `none`), component names, a frequency, a sample count and
  opaque static covariates;
* `MIDAS.ts_transform`, `MIDAS.ts_inverse_transform`, `MIDAS._verify_series`
  and `_create_midas_df` are translated into `tsTransform`,
  `tsInverseTransform`, `verifySeries` and `createMidasDf`.

The pandas composites used by the code (`resample(rule).last()` on the
datetime index, `to_period`, period resampling, `to_timestamp`,
reindex-and-assign, `date_range`, `Timedelta`, `DateOffset`) are modelled by
their calendar semantics as exercised and pinned down by the repository's
own test-suite: downsampling produces one anchored label per low period
covering the series' span, period upsampling produces every high period
inside those low periods, and for end-anchored source frequencies the
canonical high index is realigned onto the original end-anchored
timestamps.
-/
import Mathlib

/-- Proleptic Gregorian leap year test. -/
def isLeap (y : Int) : Bool :=
  (y % 4 == 0 && y % 100 != 0) || y % 400 == 0

/-- Number of days of the month with index `m` (months counted from
2020-01 as month 0; negative indices reach before 2020). -/
def daysInMonth (m : Int) : Int :=
  let r := (m % 12).toNat
  let y := 2020 + m / 12
  if r = 1 then (if isLeap y then 29 else 28)
  else [31, 31, 31, 30, 31, 30, 31, 31, 30, 31, 30, 31].getD r 31

/-- Day number (days since 2020-01-01) of the first day of month `m`. -/
def cumDays (m : Int) : Int :=
  if 0 ≤ m then ∑ i in Finset.range m.toNat, daysInMonth i
  else -∑ i in Finset.range (-m).toNat, daysInMonth (-(1 : Int) - i)

/-- Civil-calendar date of the day with day number `n` (days since
2020-01-01), returned as (month index, day of month).  Closed-form
civil-from-days computation. -/
def civilOfDay (n : Int) : Int × Int :=
  let z := n + 18262 + 719468
  let era := z / 146097
  let doe := z - era * 146097
  let yoe := (doe - doe / 1460 + doe / 36524 - doe / 146096) / 365
  let y := yoe + era * 400
  let doy := doe - (365 * yoe + yoe / 4 - yoe / 100)
  let mp := (5 * doy + 2) / 153
  let d := doy - (153 * mp + 2) / 5 + 1
  let mth := mp + (if mp < 10 then 3 else -9)
  let yy := y + (if mth ≤ 2 then 1 else 0)
  (12 * (yy - 2020) + (mth - 1), d)

/-- A pandas timestamp, as far as the transformer observes it: either a
calendar date (at midnight) or a linear instant in milliseconds since
2020-01-01 (used for tick frequencies). -/
inductive Ts where
  | cal (m : Int) (d : Int)
  | lin (ms : Int)
deriving DecidableEq, Repr

/-- Day number of a timestamp. -/
def Ts.dayOf : Ts → Int
  | .cal m d => cumDays m + d - 1
  | .lin ms => ms / 86400000

/-- Month index of a timestamp. -/
def Ts.monthOf : Ts → Int
  | .cal m _ => m
  | .lin ms => (civilOfDay (ms / 86400000)).1

/-- Millisecond instant of a timestamp. -/
def Ts.msOf : Ts → Int
  | .cal m d => 86400000 * (cumDays m + d - 1)
  | .lin ms => ms

/-- The pandas offset rules the transformer touches.  `Q a` / `QS a` are
quarter-end / quarter-start rules anchored at month `a` (1 = JAN .. 12 =
DEC); `T k` is a tick rule of `k` minutes. -/
inductive Freq where
  | M
  | Q (a : Nat)
  | QS (a : Nat)
  | D
  | H
  | T (k : Nat)
  | S
  | L
deriving DecidableEq, Repr

/-- Three-letter month name used in pandas quarterly frequency strings. -/
def monthAbbrev : Nat → String
  | 1 => "JAN" | 2 => "FEB" | 3 => "MAR" | 4 => "APR"
  | 5 => "MAY" | 6 => "JUN" | 7 => "JUL" | 8 => "AUG"
  | 9 => "SEP" | 10 => "OCT" | 11 => "NOV" | 12 => "DEC"
  | _ => ""

/-- `freq_str` of a series / `freqstr` of a pandas offset. -/
def freqStr : Freq → String
  | .M => "M"
  | .Q a => "Q-" ++ monthAbbrev a
  | .QS a => "QS-" ++ monthAbbrev a
  | .D => "D"
  | .H => "H"
  | .T 1 => "T"
  | .T k => toString k ++ "T"
  | .S => "S"
  | .L => "L"

/-- Month offset (0, 1 or 2) of the first month of every period of a
quarterly rule: `QS a` bins start at months congruent to `a - 1 (mod 3)`,
`Q a` bins end at months congruent to `a - 1 (mod 3)`. -/
def qOff : Freq → Int
  | .Q a => (a : Int) % 3
  | .QS a => ((a : Int) - 1) % 3
  | _ => 0

/-- Index of the period of frequency `f` containing timestamp `t`
(pandas `resample` binning / `to_period`). -/
def periodIdx (f : Freq) (t : Ts) : Int :=
  match f with
  | .M => t.monthOf
  | .Q a => (t.monthOf - qOff (.Q a)) / 3
  | .QS a => (t.monthOf - qOff (.QS a)) / 3
  | .D => t.dayOf
  | .H => t.msOf / 3600000
  | .T k => t.msOf / (60000 * k)
  | .S => t.msOf / 1000
  | .L => t.msOf

/-- Last day of month `m` as a timestamp (midnight, as pandas labels
month ends). -/
def monthEndTs (m : Int) : Ts := .cal m (daysInMonth m)

/-- The label pandas `resample(rule)` gives to the period with index `p`:
period end for end-anchored rules (`M`, `Q-*`), period start otherwise. -/
def anchorTs (f : Freq) (p : Int) : Ts :=
  match f with
  | .M => monthEndTs p
  | .Q a => monthEndTs (3 * p + qOff (.Q a) + 2)
  | .QS a => .cal (3 * p + qOff (.QS a)) 1
  | .D => .cal (civilOfDay p).1 (civilOfDay p).2
  | .H => .lin (3600000 * p)
  | .T k => .lin (60000 * (k : Int) * p)
  | .S => .lin (1000 * p)
  | .L => .lin p

/-- First instant of the period with index `p` of frequency `f`. -/
def periodStartTs (f : Freq) (p : Int) : Ts :=
  match f with
  | .M => .cal p 1
  | .Q a => .cal (3 * p + qOff (.Q a)) 1
  | .QS a => .cal (3 * p + qOff (.QS a)) 1
  | .D => .cal (civilOfDay p).1 (civilOfDay p).2
  | .H => .lin (3600000 * p)
  | .T k => .lin (60000 * (k : Int) * p)
  | .S => .lin (1000 * p)
  | .L => .lin p

/-- Last instant (at the granularity the transformer observes) of the
period with index `p` of frequency `f`. -/
def periodEndTs (f : Freq) (p : Int) : Ts :=
  match f with
  | .M => monthEndTs p
  | .Q a => monthEndTs (3 * p + qOff (.Q a) + 2)
  | .QS a => monthEndTs (3 * p + qOff (.QS a) + 2)
  | .D => .cal (civilOfDay p).1 (civilOfDay p).2
  | .H => .lin (3600000 * (p + 1) - 1)
  | .T k => .lin (60000 * (k : Int) * (p + 1) - 1)
  | .S => .lin (1000 * (p + 1) - 1)
  | .L => .lin p

/-- Models the code's `"End" in str(series.freq)` test: the `str` of a
pandas offset contains `"End"` exactly for the end-anchored offsets in our
universe (`<MonthEnd>`, `<QuarterEnd: startingMonth=a>`). -/
def endAnchored : Freq → Bool
  | .M => true
  | .Q _ => true
  | _ => false

/-- Python's `c in s` substring test, specialised to the single-character
needles (`"Q"`, `"S"`) the transformer uses. -/
def pyContainsChar (s : String) (c : Char) : Bool :=
  s.data.contains c

/-- The list of integers from `a` to `b` (empty if `b < a`). -/
def intRange (a b : Int) : List Int :=
  (List.range (b + 1 - a).toNat).map (fun (i : Nat) => a + (i : Int))

/-- A missing value (NaN) is `none`. -/
abbrev Val := Option Int

/-- The darts `TimeSeries` container, as far as the transformer observes
it.  `values` holds one row per timestamp; `static` is the opaque
static-covariates payload, passed through unchanged by the code. -/
structure TimeSeries where
  times : List Ts
  values : List (List Val)
  cols : List String
  freq : Freq
  nSamples : Nat
  hasDatetimeIndex : Bool
  static : Option (List Int)
deriving DecidableEq, Repr

/-- The error conditions the transformer can raise (`raise_if` /
`raise_if_not` / pandas `ValueError`). -/
inductive MidasError where
  | unsupportedSeriesKind
  | invalidIndexKind
  | multivariateNotAllowed
  | wrongDirection
  | nonIntegerMultiple
  | invalidTimedeltaUnit
deriving DecidableEq, Repr

deriving instance DecidableEq for Except

/-- The transformer's fixed parameters: `params["fixed"]["_rule"]` and
`params["fixed"]["_strip"]` (the constructor stores exactly `_rule` and
`_strip`; there is no other behavioural option). -/
structure MidasParams where
  rule : Freq
  strip : Bool
deriving DecidableEq, Repr

/-- Pipeline events used to witness in which order `ts_transform` performs
its steps (the two resample calls and the direction guard). -/
inductive Event where
  | resampleDown
  | resampleUp
  | raiseWrongDirection
deriving DecidableEq, Repr

/-- `MIDAS._verify_series`: rejects probabilistic series, non-datetime
indexes and (in forward mode) multivariate series, in that order. -/
def verifySeries (s : TimeSeries) (checkMultivariate : Bool) :
    Except MidasError Unit :=
  if 1 < s.nSamples then .error .unsupportedSeriesKind
  else if !s.hasDatetimeIndex then .error .invalidIndexKind
  else if checkMultivariate && 1 < s.cols.length then
    .error .multivariateNotAllowed
  else .ok ()

/-- Indices of the low-frequency periods produced by
`series_df.resample(rule).last()`: every `rule`-period from the one
containing the first timestamp to the one containing the last. -/
def lowPeriodsOf (rule : Freq) (s : TimeSeries) : List Int :=
  intRange (periodIdx rule (s.times.headD (.lin 0)))
    (periodIdx rule (s.times.getLastD (.lin 0)))

/-- Indices of the canonical high-frequency periods produced by
upsampling the low periods back to the source frequency
(`low_freq_series_df.resample(high_freq_period).last()`): every source
period from the first period of the first low period to the last period
of the last low period. -/
def highPeriodsOf (rule : Freq) (s : TimeSeries) : List Int :=
  intRange
    (periodIdx s.freq
      (periodStartTs rule (periodIdx rule (s.times.headD (.lin 0)))))
    (periodIdx s.freq
      (periodEndTs rule (periodIdx rule (s.times.getLastD (.lin 0)))))

/-- The canonical high-frequency timestamps
(`high_freq_series_df.index.to_timestamp(...)`): end-anchored for
end-anchored source frequencies (so that they extend the original index),
period starts otherwise. -/
def canonTimesOf (rule : Freq) (s : TimeSeries) : List Ts :=
  (highPeriodsOf rule s).map fun p =>
    if endAnchored s.freq then anchorTs s.freq p else periodStartTs s.freq p

/-- Step (3) of `ts_transform`: if the canonical high-frequency index is
longer than the original one, reindex the original values onto it, filling
new positions with missing values. -/
def expandRows (s : TimeSeries) (canon : List Ts) : List (List Val) :=
  if s.times.length < canon.length then
    canon.map fun t =>
      match s.times.findIdx? (fun u => u == t) with
      | some i => s.values.getD i (List.replicate s.cols.length none)
      | none => List.replicate s.cols.length none
  else s.values

/-- `_create_midas_df`: checks that the number of high rows is an exact
multiple of the number of low rows, then reshapes every block of
`multiple` consecutive high rows into one wide low row, renaming each
column `c` of block position `f` to `c_f`. -/
def createMidasDf (rows : List (List Val)) (cols : List String)
    (nLow : Nat) : Except MidasError (List (List Val) × List String) :=
  if nLow = 0 ∨ ¬ rows.length % nLow = 0 then .error .nonIntegerMultiple
  else
    let multiple := rows.length / nLow
    .ok
      ((List.range nLow).map fun (i : Nat) =>
          List.flatten ((List.range multiple).map fun f =>
            rows.getD (i * multiple + f) []),
        List.flatten ((List.range multiple).map fun f =>
          cols.map fun c => c ++ "_" ++ toString f))

/-- A row is entirely missing. -/
def rowAllNone (r : List Val) : Bool := r.all fun v => v.isNone

/-- darts `TimeSeries.strip()`: drop leading and trailing timestamps whose
row is entirely missing. -/
def stripSeries (s : TimeSeries) : TimeSeries :=
  let z := s.times.zip s.values
  let t :=
    ((z.dropWhile fun p => rowAllNone p.2).reverse.dropWhile fun p =>
      rowAllNone p.2).reverse
  { s with times := t.map Prod.fst, values := t.map Prod.snd }

/-- `MIDAS.ts_transform` together with the order of its pipeline events:
verify, downsample, upsample, direction guard, optional reindex, reshape,
optional strip.  The direction guard compares the row counts of the two
resampled frames, so it can only fire after both resample steps. -/
def tsTransformTrace (s : TimeSeries) (p : MidasParams) :
    Except MidasError TimeSeries × List Event :=
  match verifySeries s true with
  | .error e => (.error e, [])
  | .ok _ =>
    let lows := lowPeriodsOf p.rule s
    let highs := highPeriodsOf p.rule s
    if lows.length < highs.length then
      match createMidasDf (expandRows s (canonTimesOf p.rule s)) s.cols
          lows.length with
      | .error e => (.error e, [.resampleDown, .resampleUp])
      | .ok wide =>
        let out : TimeSeries :=
          { times := lows.map (anchorTs p.rule), values := wide.1,
            cols := wide.2, freq := p.rule, nSamples := 1,
            hasDatetimeIndex := true, static := s.static }
        (.ok (if p.strip then stripSeries out else out),
          [.resampleDown, .resampleUp])
    else
      (.error .wrongDirection,
        [.resampleDown, .resampleUp, .raiseWrongDirection])

/-- `MIDAS.ts_transform` (the per-series forward worker invoked by the
public `transform`). -/
def tsTransform (s : TimeSeries) (p : MidasParams) :
    Except MidasError TimeSeries :=
  (tsTransformTrace s p).1

/-- `pd.Timedelta(value=1, unit=freq_str)` in nanoseconds; `none` models
the `ValueError` pandas raises for month/quarter units and for multi-unit
strings such as `"10T"`. -/
def timedeltaNs : Freq → Option Int
  | .D => some 86400000000000
  | .H => some 3600000000000
  | .T 1 => some 60000000000
  | .S => some 1000000000
  | .L => some 1000000
  | _ => none

/-- `Timedelta.resolution_string` of a nanosecond count, mapped back to a
frequency: the finest unit with a nonzero component (sub-millisecond
resolutions are collapsed to `L`, which the claims never reach). -/
def resolutionFreq (ns : Int) : Freq :=
  if ns % 86400000000000 = 0 then .D
  else if ns % 3600000000000 = 0 then .H
  else if ns % 60000000000 = 0 then .T 1
  else if ns % 1000000000 = 0 then .S
  else .L

/-- `start_time - pd.DateOffset(months=k)`: move `k` months back, clipping
the day of month to the target month's length. -/
def pySubMonths (t : Ts) (k : Int) : Ts :=
  match t with
  | .cal m d => .cal (m - k) (min d (daysInMonth (m - k)))
  | .lin ms => .lin ms

/-- First month whose month-end label is not before `t` (how pandas
`date_range(freq="M")` rolls the start forward onto the anchor). -/
def rollM (t : Ts) : Int :=
  match t with
  | .cal m d => if d ≤ daysInMonth m then m else m + 1
  | .lin _ => 0

/-- Successor day of a calendar date. -/
def nextDay (t : Ts) : Ts :=
  match t with
  | .cal m d => if d < daysInMonth m then .cal m (d + 1) else .cal (m + 1) 1
  | .lin ms => .lin (ms + 86400000)

/-- `t` plus `i` days. -/
def addDays (t : Ts) : Nat → Ts
  | 0 => t
  | i + 1 => nextDay (addDays t i)

/-- `pd.date_range(start, periods=n, freq=f)`: anchored rules roll the
start forward onto the anchor and step period-wise; tick rules and `D`
step by the fixed duration from the start itself. -/
def dateRange (f : Freq) (start : Ts) (n : Nat) : List Ts :=
  match f with
  | .M => (List.range n).map fun (i : Nat) => monthEndTs (rollM start + (i : Int))
  | .Q a => (List.range n).map fun (i : Nat) =>
      anchorTs (.Q a) (periodIdx (.Q a) start + (i : Int))
  | .QS a => (List.range n).map fun (i : Nat) =>
      anchorTs (.QS a) (periodIdx (.QS a) start + (i : Int))
  | .D => (List.range n).map fun i => addDays start i
  | .H => (List.range n).map fun (i : Nat) => .lin (start.msOf + 3600000 * (i : Int))
  | .T k => (List.range n).map fun (i : Nat) =>
      .lin (start.msOf + 60000 * (k : Int) * (i : Int))
  | .S => (List.range n).map fun (i : Nat) => .lin (start.msOf + 1000 * (i : Int))
  | .L => (List.range n).map fun (i : Nat) => .lin (start.msOf + (i : Int))

/-- Python's `s[: -len(f"_{n}")]` applied to the last component name:
drop the final `1 + len(str(n))` characters (empty result if the name is
shorter). -/
def pyStripName (s : String) (n : Nat) : String :=
  ⟨s.data.take (s.data.length - ("_" ++ toString n).data.length)⟩

/-- `MIDAS.ts_inverse_transform`.  Note that it never reads its `params`
argument: everything is derived from the wide series itself. -/
def tsInverseTransform (series : TimeSeries) (_params : MidasParams) :
    Except MidasError TimeSeries :=
  match verifySeries series false with
  | .error e => .error e
  | .ok _ =>
    let startTime := series.times.headD (.lin 0)
    let vals := series.values.flatten
    let n := series.cols.length
    let lowName := freqStr series.freq
    if pyContainsChar lowName 'Q' then
      let start :=
        if !pyContainsChar lowName 'S' then
          pySubMonths startTime ((n : Int) - 1)
        else startTime
      .ok
        { times := dateRange .M start vals.length,
          values := vals.map fun v => [v],
          cols := [pyStripName (series.cols.getLastD "") n], freq := .M,
          nSamples := 1, hasDatetimeIndex := true, static := series.static }
    else
      match timedeltaNs series.freq with
      | none => .error .invalidTimedeltaUnit
      | some ns =>
        let highFreq := resolutionFreq (ns / (n : Int))
        .ok
          { times := dateRange highFreq startTime vals.length,
            values := vals.map fun v => [v],
            cols := [pyStripName (series.cols.getLastD "") n],
            freq := highFreq, nSamples := 1, hasDatetimeIndex := true,
            static := series.static }

/-- A univariate series of monthly values at month-end timestamps, starting
at month `m0`, with component name `c` and static covariates `sc` — the
shape `TimeSeries.from_times_and_values` produces for a monthly
(`freq="M"`) input. -/
def mkMonthlySeries (c : String) (m0 : Int) (vals : List Int)
    (sc : Option (List Int)) : TimeSeries :=
  { times := (List.range vals.length).map fun (i : Nat) => monthEndTs (m0 + (i : Int)),
    values := vals.map fun v => [some v], cols := [c], freq := .M,
    nSamples := 1, hasDatetimeIndex := true, static := sc }

/-- A univariate daily series covering exactly the `k` whole months
starting at month `m1`. -/
def mkFullMonthsDaily (c : String) (m1 : Int) (k : Nat) (vals : List Int)
    (sc : Option (List Int)) : TimeSeries :=
  { times := (List.range k).flatMap fun (j : Nat) =>
      (List.range (daysInMonth (m1 + (j : Int))).toNat).map fun (i : Nat) =>
        Ts.cal (m1 + (j : Int)) (1 + (i : Int)),
    values := vals.map fun v => [some v], cols := [c], freq := .D,
    nSamples := 1, hasDatetimeIndex := true, static := sc }

/-- The single wide cell at high-frequency position `j` of the forward
transform of a univariate series whose first `k1` high positions of the
canonical range are not covered: a value for covered positions, a missing
value otherwise. -/
def midasCell (vals : List Int) (k1 j : Nat) : List Val :=
  if k1 ≤ j ∧ j < k1 + vals.length then [some (vals.getD (j - k1) 0)]
  else [none]

/-- Wide row `i` of the forward transform of a univariate monthly series
into quarters (ratio 3): the three cells of quarter `i`. -/
def midasGridRow (vals : List Int) (k1 i : Nat) : List Val :=
  midasCell vals k1 (3 * i) ++ midasCell vals k1 (3 * i + 1) ++
    midasCell vals k1 (3 * i + 2)

/-- The wide series the forward transform produces from a univariate
monthly series covering the quarters `q .. q + n - 1` of the quarterly rule
`rule`, with the first `k1` canonical months not covered by the input. -/
def midasWideQuarterly (rule : Freq) (q : Int) (n k1 : Nat) (c : String)
    (vals : List Int) (sc : Option (List Int)) : TimeSeries :=
  { times := (intRange q (q + (n : Int) - 1)).map (anchorTs rule),
    values := (List.range n).map (midasGridRow vals k1),
    cols := [c ++ "_0", c ++ "_1", c ++ "_2"], freq := rule, nSamples := 1,
    hasDatetimeIndex := true, static := sc }

/-- Whether, in a pipeline event trace, the `WrongDirection` error is
signaled before any resampling step. -/
def raisedBeforeResampling (tr : List Event) : Bool :=
  match tr.findIdx? (fun e => e == Event.raiseWrongDirection),
      tr.findIdx? (fun e => e == Event.resampleDown) with
  | some i, some j => decide (i < j)
  | some _, none => true
  | _, _ => false

/- ### Generic list and arithmetic lemmas -/

theorem headD_range_map {α : Type} (f : Nat → α) (L : Nat) (hL : 0 < L)
    (d : α) : ((List.range L).map f).headD d = f 0 := by
  cases L with
  | zero => omega
  | succ n => simp [List.range_succ_eq_map]

theorem getLastD_range_map {α : Type} (f : Nat → α) (L : Nat) (hL : 0 < L)
    (d : α) : ((List.range L).map f).getLastD d = f (L - 1) := by
  cases L with
  | zero => omega
  | succ n =>
    simp [List.range_succ, List.getLastD_eq_getLast?, List.getLast?_append]

theorem getD_range_map {α : Type} (f : Nat → α) (L i : Nat) (hi : i < L)
    (d : α) : ((List.range L).map f).getD i d = f i := by
  simp [List.getD_eq_getElem?_getD, List.getElem?_map, List.getElem?_range hi]

theorem map_eq_map_range_getD {α β : Type} (g : α → β) (l : List α)
    (d : α) : l.map g = (List.range l.length).map fun i => g (l.getD i d) := by
  induction l with
  | nil => simp
  | cons a t ih =>
    simp only [List.map_cons, List.length_cons, List.range_succ_eq_map,
      List.map_map, List.getD_cons_zero]
    refine congrArg (List.cons (g a)) ?_
    rw [ih]
    refine List.map_congr_left fun i _ => ?_
    simp [Function.comp, List.getD_cons_succ]

theorem length_intRange (a b : Int) :
    (intRange a b).length = (b + 1 - a).toNat := by
  rw [intRange, List.length_map, List.length_range]

theorem map_intRange {α : Type} (g : Int → α) (a b : Int) :
    (intRange a b).map g =
      (List.range (b + 1 - a).toNat).map fun (i : Nat) => g (a + (i : Int)) := by
  simp [intRange, List.map_map, Function.comp]

theorem daysInMonth_bounds (m : Int) :
    28 ≤ daysInMonth m ∧ daysInMonth m ≤ 31 := by
  have h12 : (m % 12).toNat < 12 := by omega
  unfold daysInMonth
  set r := (m % 12).toNat with hr
  interval_cases r <;> (simp; try constructor <;> split <;> omega)

theorem cumDays_succ (m : Int) :
    cumDays (m + 1) = cumDays m + daysInMonth m := by
  rcases le_or_lt 0 m with h | h
  · have hc1 : (0 : Int) ≤ m + 1 := by omega
    rw [cumDays, cumDays, if_pos hc1, if_pos h]
    have h1 : (m + 1).toNat = m.toNat + 1 := by omega
    rw [h1, Finset.sum_range_succ]
    have h2 : ((m.toNat : Int)) = m := by omega
    rw [h2]
  · rcases eq_or_lt_of_le (by omega : m + 1 ≤ 0) with h0 | h0
    · have hc1 : (0 : Int) ≤ m + 1 := by omega
      have hc2 : ¬ (0 : Int) ≤ m := by omega
      rw [cumDays, cumDays, if_pos hc1, if_neg hc2]
      have h1 : (m + 1).toNat = 0 := by omega
      have h2 : (-m).toNat = 1 := by omega
      rw [h1, h2, Finset.sum_range_zero, Finset.sum_range_one]
      have h3 : -(1 : Int) - ((0 : Nat) : Int) = m := by omega
      rw [h3]
      ring
    · have hc1 : ¬ (0 : Int) ≤ m + 1 := by omega
      have hc2 : ¬ (0 : Int) ≤ m := by omega
      rw [cumDays, cumDays, if_neg hc1, if_neg hc2]
      have h1 : (-m).toNat = (-(m + 1)).toNat + 1 := by omega
      rw [h1, Finset.sum_range_succ]
      have h2 : -(1 : Int) - (((-(m + 1)).toNat : Int)) = m := by omega
      rw [h2]
      ring

@[simp] theorem monthOf_monthEndTs (m : Int) : (monthEndTs m).monthOf = m := rfl

@[simp] theorem monthOf_cal (m d : Int) : (Ts.cal m d).monthOf = m := rfl

@[simp] theorem dayOf_cal (m d : Int) : (Ts.cal m d).dayOf = cumDays m + d - 1 := rfl

theorem monthEndTs_inj {x y : Int} (h : monthEndTs x = monthEndTs y) : x = y := by
  simpa [monthEndTs] using congrArg Ts.monthOf h

theorem findIdx?_monthEnd (L : Nat) (b x : Int) :
    ((List.range L).map fun (i : Nat) => monthEndTs (b + (i : Int))).findIdx?
        (fun u => u == monthEndTs x) =
      if b ≤ x ∧ x < b + L then some (x - b).toNat else none := by
  induction L generalizing b with
  | zero =>
    rw [List.range_zero, List.map_nil, List.findIdx?_nil, if_neg (by omega)]
  | succ n ih =>
    rw [List.range_succ_eq_map, List.map_cons, List.map_map, List.findIdx?_cons,
      List.findIdx?_succ]
    have hmap :
        (List.range n).map
            ((fun (i : Nat) => monthEndTs (b + (i : Int))) ∘ Nat.succ) =
          (List.range n).map fun (i : Nat) => monthEndTs (b + 1 + (i : Int)) := by
      refine List.map_congr_left fun i _ => ?_
      simp only [Function.comp_apply]
      congr 1
      push_cast
      ring
    rw [hmap, ih]
    by_cases hbx : b = x
    · have hc : (monthEndTs (b + ((0 : Nat) : Int)) == monthEndTs x) = true := by
        simp [hbx]
      rw [if_pos hc, if_pos (by push_cast; omega)]
      congr 1
      omega
    · have hc : ¬ ((monthEndTs (b + ((0 : Nat) : Int)) == monthEndTs x) = true) := by
        simp only [beq_iff_eq]
        intro hceq
        have := monthEndTs_inj hceq
        omega
      rw [if_neg hc]
      by_cases hcond : b + 1 ≤ x ∧ x < b + 1 + n
      · rw [if_pos hcond, if_pos (by push_cast; omega)]
        simp only [Option.map_some']
        congr 1
        omega
      · rw [if_neg hcond, if_neg (by push_cast; omega)]
        simp

theorem flatten_range_triples {α : Type} (g : Nat → List α) (n : Nat) :
    ((List.range n).map fun i => g (3 * i) ++ g (3 * i + 1) ++ g (3 * i + 2)).flatten
      = ((List.range (3 * n)).map g).flatten := by
  induction n with
  | zero => simp
  | succ k ih =>
    rw [List.range_succ, List.map_append, List.flatten_append, ih]
    have h3 : 3 * (k + 1) = (3 * k + 1) + 1 + 1 := by omega
    rw [h3, List.range_succ, List.range_succ, List.range_succ]
    simp [List.append_assoc]

theorem flatten_range_singletons {α : Type} (h : Nat → α) (n : Nat) :
    ((List.range n).map fun j => [h j]).flatten = (List.range n).map h := by
  induction n with
  | zero => simp
  | succ k ih => rw [List.range_succ] ; simp [ih]

theorem dropWhile_eq_self_of_false {α : Type} (p : α → Bool) (l : List α)
    (h : ∀ x ∈ l, p x = false) : l.dropWhile p = l := by
  cases l with
  | nil => rfl
  | cons a t =>
    rw [List.dropWhile_cons, h a (by simp)]
    simp

/-- `strip()` does nothing when no row is entirely missing. -/
theorem stripSeries_eq_self (s : TimeSeries)
    (hlen : s.times.length = s.values.length)
    (h : ∀ r ∈ s.values, rowAllNone r = false) : stripSeries s = s := by
  simp only [stripSeries]
  have hz : ∀ x ∈ s.times.zip s.values, (rowAllNone x.2) = false := by
    intro x hx
    exact h x.2 (List.of_mem_zip hx).2
  rw [dropWhile_eq_self_of_false _ _ hz]
  rw [dropWhile_eq_self_of_false _ _ (by
    intro x hx
    exact hz x (by simpa using hx))]
  rw [List.reverse_reverse]
  have h1 : (s.times.zip s.values).map Prod.fst = s.times :=
    List.map_fst_zip _ _ (by omega)
  have h2 : (s.times.zip s.values).map Prod.snd = s.values :=
    List.map_snd_zip _ _ (by omega)
  cases s
  simp_all

/- ### Evaluation of the forward pipeline on univariate monthly series -/

theorem verify_mkMonthly (c : String) (m0 : Int) (vals : List Int)
    (sc : Option (List Int)) (b : Bool) :
    verifySeries (mkMonthlySeries c m0 vals sc) b = .ok () := by
  simp [verifySeries, mkMonthlySeries]

theorem lowPeriodsOf_mkMonthly (rule : Freq) (off : Int)
    (hIdx : ∀ t : Ts, periodIdx rule t = (t.monthOf - off) / 3)
    (q : Int) (n k1 k2 : Nat) (c : String) (vals : List Int)
    (sc : Option (List Int)) (hk1 : k1 < 3) (hk2 : k2 < 3) (hn : 1 ≤ n)
    (hL : vals.length = 3 * n - k1 - k2) (hpos : k1 + k2 < 3 * n) :
    lowPeriodsOf rule (mkMonthlySeries c (3 * q + off + k1) vals sc) =
      intRange q (q + (n : Int) - 1) := by
  have hL0 : 0 < vals.length := by omega
  unfold lowPeriodsOf mkMonthlySeries
  rw [headD_range_map _ _ hL0, getLastD_range_map _ _ hL0, hIdx, hIdx]
  simp only [monthOf_monthEndTs]
  congr 1
  · push_cast
    omega
  · push_cast
    omega

theorem highPeriodsOf_mkMonthly (rule : Freq) (off : Int)
    (hIdx : ∀ t : Ts, periodIdx rule t = (t.monthOf - off) / 3)
    (hStart : ∀ p : Int, periodStartTs rule p = Ts.cal (3 * p + off) 1)
    (hEnd : ∀ p : Int, periodEndTs rule p = monthEndTs (3 * p + off + 2))
    (q : Int) (n k1 k2 : Nat) (c : String) (vals : List Int)
    (sc : Option (List Int)) (hk1 : k1 < 3) (hk2 : k2 < 3) (hn : 1 ≤ n)
    (hL : vals.length = 3 * n - k1 - k2) (hpos : k1 + k2 < 3 * n) :
    highPeriodsOf rule (mkMonthlySeries c (3 * q + off + k1) vals sc) =
      intRange (3 * q + off) (3 * q + off + 3 * (n : Int) - 1) := by
  have hL0 : 0 < vals.length := by omega
  unfold highPeriodsOf mkMonthlySeries
  rw [headD_range_map _ _ hL0, getLastD_range_map _ _ hL0, hIdx, hIdx]
  simp only [monthOf_monthEndTs]
  have e1 : (3 * q + off + k1 + ((0 : Nat) : Int) - off) / 3 = q := by
    push_cast
    omega
  have e2 : (3 * q + off + k1 + ((vals.length - 1 : Nat) : Int) - off) / 3 =
      q + (n : Int) - 1 := by
    push_cast
    omega
  rw [e1, e2, hStart, hEnd]
  show intRange (Ts.cal (3 * q + off) 1).monthOf
      (monthEndTs (3 * (q + (n : Int) - 1) + off + 2)).monthOf = _
  simp only [monthOf_cal, monthOf_monthEndTs]
  congr 1
  omega

theorem canonTimesOf_mkMonthly (rule : Freq) (off : Int)
    (hIdx : ∀ t : Ts, periodIdx rule t = (t.monthOf - off) / 3)
    (hStart : ∀ p : Int, periodStartTs rule p = Ts.cal (3 * p + off) 1)
    (hEnd : ∀ p : Int, periodEndTs rule p = monthEndTs (3 * p + off + 2))
    (q : Int) (n k1 k2 : Nat) (c : String) (vals : List Int)
    (sc : Option (List Int)) (hk1 : k1 < 3) (hk2 : k2 < 3) (hn : 1 ≤ n)
    (hL : vals.length = 3 * n - k1 - k2) (hpos : k1 + k2 < 3 * n) :
    canonTimesOf rule (mkMonthlySeries c (3 * q + off + k1) vals sc) =
      (List.range (3 * n)).map
        fun (j : Nat) => monthEndTs (3 * q + off + (j : Int)) := by
  unfold canonTimesOf
  rw [highPeriodsOf_mkMonthly rule off hIdx hStart hEnd q n k1 k2 c vals sc
    hk1 hk2 hn hL hpos]
  have hfreq : (mkMonthlySeries c (3 * q + off + k1) vals sc).freq = .M := rfl
  rw [hfreq]
  rw [map_intRange]
  have hcnt : (3 * q + off + 3 * (n : Int) - 1 + 1 - (3 * q + off)).toNat =
      3 * n := by omega
  rw [hcnt]
  rfl

theorem expandRows_mkMonthly (q off : Int) (n k1 k2 : Nat) (c : String)
    (vals : List Int) (sc : Option (List Int))
    (hk1 : k1 < 3) (hk2 : k2 < 3) (hn : 1 ≤ n)
    (hL : vals.length = 3 * n - k1 - k2) (hpos : k1 + k2 < 3 * n) :
    expandRows (mkMonthlySeries c (3 * q + off + k1) vals sc)
        ((List.range (3 * n)).map
          fun (j : Nat) => monthEndTs (3 * q + off + (j : Int))) =
      (List.range (3 * n)).map (midasCell vals k1) := by
  unfold expandRows mkMonthlySeries
  simp only [List.length_map, List.length_range]
  by_cases hexp : vals.length < 3 * n
  · rw [if_pos hexp, List.map_map]
    refine List.map_congr_left fun j hj => ?_
    have hj3 : j < 3 * n := List.mem_range.mp hj
    simp only [Function.comp_apply]
    rw [findIdx?_monthEnd]
    by_cases hc : k1 ≤ j ∧ j < k1 + vals.length
    · have hP : (3 * q + off + (k1 : Int)) ≤ 3 * q + off + (j : Int) ∧
          3 * q + off + (j : Int) <
            3 * q + off + (k1 : Int) + (vals.length : Int) := by
        constructor <;> (push_cast; omega)
      rw [if_pos hP]
      have hidx : ((3 * q + off + (j : Int)) -
          (3 * q + off + (k1 : Int))).toNat = j - k1 := by omega
      rw [hidx]
      show (vals.map fun v => [some v]).getD (j - k1)
          (List.replicate ([c].length) none) = midasCell vals k1 j
      rw [map_eq_map_range_getD _ vals 0,
        getD_range_map _ _ _ (by omega : j - k1 < vals.length)]
      rw [midasCell, if_pos hc]
    · have hPn : ¬ ((3 * q + off + (k1 : Int)) ≤ 3 * q + off + (j : Int) ∧
          3 * q + off + (j : Int) <
            3 * q + off + (k1 : Int) + (vals.length : Int)) := by
        push_cast
        omega
      rw [if_neg hPn]
      show List.replicate ([c].length) none = midasCell vals k1 j
      rw [midasCell, if_neg hc]
      rfl
  · rw [if_neg hexp]
    have h0 : k1 = 0 := by omega
    have hL3 : vals.length = 3 * n := by omega
    subst h0
    show (vals.map fun v => [some v]) = _
    rw [map_eq_map_range_getD _ vals 0, hL3]
    refine List.map_congr_left fun j hj => ?_
    have hj3 : j < 3 * n := List.mem_range.mp hj
    rw [midasCell, if_pos (by omega)]
    simp

theorem createMidasDf_eval (g : Nat → List Val) (c : String) (n : Nat)
    (hn : n ≠ 0) :
    createMidasDf ((List.range (3 * n)).map g) [c] n =
      .ok
        ((List.range n).map fun i =>
            g (3 * i) ++ g (3 * i + 1) ++ g (3 * i + 2),
          [c ++ "_0", c ++ "_1", c ++ "_2"]) := by
  unfold createMidasDf
  rw [List.length_map, List.length_range]
  have hcond : ¬ (n = 0 ∨ ¬ 3 * n % n = 0) := by
    push_neg
    exact ⟨hn, Nat.mul_mod_left 3 n⟩
  rw [if_neg hcond]
  have hdiv : 3 * n / n = 3 := by
    rw [Nat.mul_comm, Nat.mul_div_cancel_left _ (Nat.pos_of_ne_zero hn)]
  rw [hdiv]
  refine congrArg Except.ok (Prod.ext ?_ ?_)
  · show (List.range n).map _ = _
    refine List.map_congr_left fun i hi => ?_
    have hi3 : i < n := List.mem_range.mp hi
    show ((List.range 3).map fun f =>
        (((List.range (3 * n)).map g).getD (i * 3 + f) [])).flatten = _
    have h3 : List.range 3 = [0, 1, 2] := rfl
    rw [h3]
    simp only [List.map_cons, List.map_nil, List.flatten]
    rw [getD_range_map _ _ _ (by omega), getD_range_map _ _ _ (by omega),
      getD_range_map _ _ _ (by omega)]
    have e0 : i * 3 + 0 = 3 * i := by omega
    have e1 : i * 3 + 1 = 3 * i + 1 := by omega
    have e2 : i * 3 + 2 = 3 * i + 2 := by omega
    rw [e0, e1, e2]
    simp [List.append_assoc]
  · show ((List.range 3).map fun f =>
        [c].map fun c0 => c0 ++ "_" ++ toString f).flatten = _
    have h3 : List.range 3 = [0, 1, 2] := rfl
    rw [h3]
    simp only [List.map_cons, List.map_nil, List.flatten, List.append_nil]
    have e0 : ("_" : String) ++ toString (0 : Nat) = "_0" := rfl
    have e1 : ("_" : String) ++ toString (1 : Nat) = "_1" := rfl
    have e2 : ("_" : String) ++ toString (2 : Nat) = "_2" := rfl
    rw [String.append_assoc, String.append_assoc, String.append_assoc,
      e0, e1, e2]
    rfl

/-- Full evaluation of the forward transform on a univariate monthly series
covering quarters `q .. q + n - 1` of a quarterly rule, with `k1` missing
canonical months at the start and `k2` at the end. -/
theorem tsTransformTrace_monthly (rule : Freq) (off : Int)
    (hIdx : ∀ t : Ts, periodIdx rule t = (t.monthOf - off) / 3)
    (hStart : ∀ p : Int, periodStartTs rule p = Ts.cal (3 * p + off) 1)
    (hEnd : ∀ p : Int, periodEndTs rule p = monthEndTs (3 * p + off + 2))
    (q : Int) (n k1 k2 : Nat) (c : String) (vals : List Int)
    (sc : Option (List Int)) (st : Bool)
    (hk1 : k1 < 3) (hk2 : k2 < 3) (hn : 1 ≤ n)
    (hL : vals.length = 3 * n - k1 - k2) (hpos : k1 + k2 < 3 * n) :
    tsTransformTrace (mkMonthlySeries c (3 * q + off + k1) vals sc)
        ⟨rule, st⟩ =
      (.ok (if st then stripSeries (midasWideQuarterly rule q n k1 c vals sc)
          else midasWideQuarterly rule q n k1 c vals sc),
        [.resampleDown, .resampleUp]) := by
  simp only [tsTransformTrace, verify_mkMonthly]
  rw [lowPeriodsOf_mkMonthly rule off hIdx q n k1 k2 c vals sc hk1 hk2 hn hL
      hpos,
    highPeriodsOf_mkMonthly rule off hIdx hStart hEnd q n k1 k2 c vals sc hk1
      hk2 hn hL hpos,
    canonTimesOf_mkMonthly rule off hIdx hStart hEnd q n k1 k2 c vals sc hk1
      hk2 hn hL hpos,
    expandRows_mkMonthly q off n k1 k2 c vals sc hk1 hk2 hn hL hpos,
    length_intRange, length_intRange]
  have hqn : (q + (n : Int) - 1 + 1 - q).toNat = n := by omega
  have hqh : (3 * q + off + 3 * (n : Int) - 1 + 1 - (3 * q + off)).toNat =
      3 * n := by omega
  rw [hqn, hqh]
  have hlt : n < 3 * n := by omega
  rw [if_pos hlt]
  simp only [mkMonthlySeries]
  rw [createMidasDf_eval (midasCell vals k1) c n (by omega)]
  rfl

theorem rowAllNone_midasGridRow (vals : List Int) (n k1 k2 i : Nat)
    (hk1 : k1 < 3) (hk2 : k2 < 3) (hL : vals.length = 3 * n - k1 - k2)
    (hpos : k1 + k2 < 3 * n) (hi : i < n) :
    rowAllNone (midasGridRow vals k1 i) = false := by
  unfold rowAllNone midasGridRow
  rw [List.all_append, List.all_append]
  by_cases h0 : i = 0
  · subst h0
    interval_cases k1
    · rw [show midasCell vals 0 (3 * 0) = [some (vals.getD (3 * 0 - 0) 0)]
        from by rw [midasCell, if_pos (by omega)]]
      simp
    · rw [show midasCell vals 1 (3 * 0 + 1) =
          [some (vals.getD (3 * 0 + 1 - 1) 0)]
        from by rw [midasCell, if_pos (by omega)]]
      simp
    · rw [show midasCell vals 2 (3 * 0 + 2) =
          [some (vals.getD (3 * 0 + 2 - 2) 0)]
        from by rw [midasCell, if_pos (by omega)]]
      simp
  · rw [show midasCell vals k1 (3 * i) = [some (vals.getD (3 * i - k1) 0)]
      from by rw [midasCell, if_pos (by omega)]]
    simp

theorem strip_midasWideQuarterly (rule : Freq) (q : Int) (n k1 k2 : Nat)
    (c : String) (vals : List Int) (sc : Option (List Int))
    (hk1 : k1 < 3) (hk2 : k2 < 3) (hL : vals.length = 3 * n - k1 - k2)
    (hpos : k1 + k2 < 3 * n) (hn : 1 ≤ n) :
    stripSeries (midasWideQuarterly rule q n k1 c vals sc) =
      midasWideQuarterly rule q n k1 c vals sc := by
  apply stripSeries_eq_self
  · simp [midasWideQuarterly, length_intRange]
  · intro r hr
    simp only [midasWideQuarterly] at hr
    obtain ⟨i, hi, hri⟩ := List.mem_map.mp hr
    subst hri
    exact rowAllNone_midasGridRow vals n k1 k2 i hk1 hk2 hL hpos
      (List.mem_range.mp hi)

/-- The forward transform of a univariate monthly series covering quarters
`q .. q + n - 1` of a quarterly rule (with boundary gaps `k1`, `k2`)
succeeds and produces the expected wide series, for either strip setting. -/
theorem tsTransform_monthly (rule : Freq) (off : Int)
    (hIdx : ∀ t : Ts, periodIdx rule t = (t.monthOf - off) / 3)
    (hStart : ∀ p : Int, periodStartTs rule p = Ts.cal (3 * p + off) 1)
    (hEnd : ∀ p : Int, periodEndTs rule p = monthEndTs (3 * p + off + 2))
    (q : Int) (n k1 k2 : Nat) (c : String) (vals : List Int)
    (sc : Option (List Int)) (st : Bool)
    (hk1 : k1 < 3) (hk2 : k2 < 3) (hn : 1 ≤ n)
    (hL : vals.length = 3 * n - k1 - k2) (hpos : k1 + k2 < 3 * n) :
    tsTransform (mkMonthlySeries c (3 * q + off + k1) vals sc) ⟨rule, st⟩ =
      .ok (midasWideQuarterly rule q n k1 c vals sc) := by
  unfold tsTransform
  rw [tsTransformTrace_monthly rule off hIdx hStart hEnd q n k1 k2 c vals sc
    st hk1 hk2 hn hL hpos]
  cases st
  · rfl
  · rw [if_pos (by trivial),
      strip_midasWideQuarterly rule q n k1 k2 c vals sc hk1 hk2 hL hpos hn]

/- ### Evaluation of the inverse pipeline on forward-produced wide series -/

theorem pyContainsChar_append (s t : String) (ch : Char) :
    pyContainsChar (s ++ t) ch =
      (pyContainsChar s ch || pyContainsChar t ch) := by
  simp [pyContainsChar, String.data_append, List.contains_eq_any_beq,
    List.any_append]

theorem verify_wideQuarterly (rule : Freq) (q : Int) (n k1 : Nat)
    (c : String) (vals : List Int) (sc : Option (List Int)) :
    verifySeries (midasWideQuarterly rule q n k1 c vals sc) false = .ok () := by
  simp [verifySeries, midasWideQuarterly]

theorem headD_map_intRange {α : Type} (g : Int → α) (a b : Int) (h : a ≤ b)
    (d : α) : ((intRange a b).map g).headD d = g a := by
  rw [map_intRange, headD_range_map _ _ (by omega)]
  norm_num

theorem flatten_midasGrid_full (vals : List Int) (n : Nat)
    (hL : vals.length = 3 * n) :
    ((List.range n).map (midasGridRow vals 0)).flatten = vals.map some := by
  unfold midasGridRow
  rw [flatten_range_triples (midasCell vals 0) n]
  rw [List.map_congr_left (fun j hj =>
    show midasCell vals 0 j = [some (vals.getD j 0)] from by
      rw [midasCell, if_pos ⟨Nat.zero_le j, by
        have := List.mem_range.mp hj
        omega⟩]
      rfl)]
  rw [flatten_range_singletons (fun j => some (vals.getD j 0)) (3 * n)]
  rw [map_eq_map_range_getD some vals 0, hL]

theorem pyStripName_two (c : String) : pyStripName (c ++ "_2") 3 = c := by
  unfold pyStripName
  rw [String.data_append]
  have h2 : ("_2" : String).data = ['_', '2'] := rfl
  have h3 : (("_" ++ toString 3 : String)).data.length = 2 := rfl
  rw [h2, h3, List.length_append]
  have h4 : c.data.length + ['_', '2'].length - 2 = c.data.length := by
    simp
  rw [h4, List.take_left]

theorem dateRange_M_of_le (m d : Int) (hd : d ≤ daysInMonth m) (L : Nat) :
    dateRange .M (Ts.cal m d) L =
      (List.range L).map fun (i : Nat) => monthEndTs (m + (i : Int)) := by
  simp only [dateRange, rollM]
  rw [if_pos hd]

theorem tsInverseTransform_wide_QS (a : Nat) (q : Int) (n : Nat) (c : String)
    (vals : List Int) (sc : Option (List Int)) (p : MidasParams)
    (hn : 1 ≤ n) (hL : vals.length = 3 * n) :
    tsInverseTransform (midasWideQuarterly (.QS a) q n 0 c vals sc) p =
      .ok (mkMonthlySeries c (3 * q + qOff (.QS a)) vals sc) := by
  have hq : pyContainsChar (freqStr (.QS a)) 'Q' = true := by
    show pyContainsChar ("QS-" ++ monthAbbrev a) 'Q' = true
    rw [pyContainsChar_append]
    rw [show pyContainsChar "QS-" 'Q' = true from rfl]
    rfl
  have hs : pyContainsChar (freqStr (.QS a)) 'S' = true := by
    show pyContainsChar ("QS-" ++ monthAbbrev a) 'S' = true
    rw [pyContainsChar_append]
    rw [show pyContainsChar "QS-" 'S' = true from rfl]
    rfl
  simp only [tsInverseTransform, verify_wideQuarterly, midasWideQuarterly]
  rw [if_pos hq, hs]
  have hnotS : ¬ ((!true) = true) := by simp
  rw [if_neg hnotS]
  rw [headD_map_intRange (anchorTs (.QS a)) q (q + (n : Int) - 1) (by omega)
    (.lin 0)]
  rw [flatten_midasGrid_full vals n hL, List.length_map]
  rw [show ([c ++ "_0", c ++ "_1", c ++ "_2"].getLastD "") = c ++ "_2"
    from rfl]
  rw [show ([c ++ "_0", c ++ "_1", c ++ "_2"]).length = 3 from rfl]
  rw [pyStripName_two c]
  rw [show anchorTs (.QS a) q = Ts.cal (3 * q + qOff (.QS a)) 1 from rfl]
  rw [dateRange_M_of_le (3 * q + qOff (.QS a)) 1
    (by have := daysInMonth_bounds (3 * q + qOff (.QS a)); omega) vals.length]
  rw [List.map_map]
  rfl

theorem tsInverseTransform_wide_Q (a : Nat) (q : Int) (n : Nat) (c : String)
    (vals : List Int) (sc : Option (List Int)) (p : MidasParams)
    (hn : 1 ≤ n) (hL : vals.length = 3 * n)
    (ha : pyContainsChar (monthAbbrev a) 'S' = false) :
    tsInverseTransform (midasWideQuarterly (.Q a) q n 0 c vals sc) p =
      .ok (mkMonthlySeries c (3 * q + qOff (.Q a)) vals sc) := by
  have hq : pyContainsChar (freqStr (.Q a)) 'Q' = true := by
    show pyContainsChar ("Q-" ++ monthAbbrev a) 'Q' = true
    rw [pyContainsChar_append]
    rw [show pyContainsChar "Q-" 'Q' = true from rfl]
    rfl
  have hs : pyContainsChar (freqStr (.Q a)) 'S' = false := by
    show pyContainsChar ("Q-" ++ monthAbbrev a) 'S' = false
    rw [pyContainsChar_append]
    rw [show pyContainsChar "Q-" 'S' = false from rfl, ha]
    rfl
  simp only [tsInverseTransform, verify_wideQuarterly, midasWideQuarterly]
  rw [if_pos hq, hs]
  rw [if_pos (show (!false) = true from rfl)]
  rw [headD_map_intRange (anchorTs (.Q a)) q (q + (n : Int) - 1) (by omega)
    (.lin 0)]
  rw [flatten_midasGrid_full vals n hL, List.length_map]
  rw [show ([c ++ "_0", c ++ "_1", c ++ "_2"].getLastD "") = c ++ "_2"
    from rfl]
  rw [show ([c ++ "_0", c ++ "_1", c ++ "_2"]).length = 3 from rfl]
  rw [pyStripName_two c]
  have hsub : pySubMonths (anchorTs (.Q a) q) (((3 : Nat) : Int) - 1) =
      Ts.cal (3 * q + qOff (.Q a))
        (min (daysInMonth (3 * q + qOff (.Q a) + 2))
          (daysInMonth (3 * q + qOff (.Q a)))) := by
    show pySubMonths
        (Ts.cal (3 * q + qOff (.Q a) + 2)
          (daysInMonth (3 * q + qOff (.Q a) + 2))) _ = _
    simp only [pySubMonths]
    congr 1
    · omega
    · congr 1
      congr 1
      omega
  rw [hsub]
  rw [dateRange_M_of_le (3 * q + qOff (.Q a))
    (min (daysInMonth (3 * q + qOff (.Q a) + 2))
      (daysInMonth (3 * q + qOff (.Q a))))
    (min_le_right _ _) vals.length]
  rw [List.map_map]
  rfl

/-- C1: Round-trip law.  Amended: for a univariate month-end-frequency
series with no missing values that exactly covers whole low-frequency
periods (aligned start, length `3 * n`), and a quarterly target rule whose
frequency string has no `S` in its anchor suffix (all `QS-*` rules and all
`Q-*` rules except `Q-SEP`), applying the inverse mapper to the forward
mapper's output reproduces the series exactly — same timestamps, values,
component name, frequency and static covariates — for either strip
setting. -/
theorem C1_roundtrip_aligned (rule : Freq) (a : Nat)
    (hrule : rule = .QS a ∨
      (rule = .Q a ∧ pyContainsChar (monthAbbrev a) 'S' = false))
    (q : Int) (n : Nat) (c : String) (vals : List Int)
    (sc : Option (List Int)) (st : Bool)
    (hn : 1 ≤ n) (hL : vals.length = 3 * n) :
    (tsTransform (mkMonthlySeries c (3 * q + qOff rule) vals sc)
        ⟨rule, st⟩).bind
      (fun w => tsInverseTransform w ⟨rule, st⟩) =
      .ok (mkMonthlySeries c (3 * q + qOff rule) vals sc) := by
  have hL0 : vals.length = 3 * n - 0 - 0 := by omega
  have hpos : 0 + 0 < 3 * n := by omega
  rcases hrule with h | ⟨h, ha⟩
  · subst h
    have hfwd := tsTransform_monthly (.QS a) (qOff (.QS a))
      (fun t => rfl) (fun p => rfl) (fun p => rfl)
      q n 0 0 c vals sc st (by omega) (by omega) hn hL0 hpos
    simp only [Nat.cast_zero, add_zero] at hfwd
    rw [hfwd]
    exact tsInverseTransform_wide_QS a q n c vals sc ⟨.QS a, st⟩ hn hL
  · subst h
    have hfwd := tsTransform_monthly (.Q a) (qOff (.Q a))
      (fun t => rfl) (fun p => rfl) (fun p => rfl)
      q n 0 0 c vals sc st (by omega) (by omega) hn hL0 hpos
    simp only [Nat.cast_zero, add_zero] at hfwd
    rw [hfwd]
    exact tsInverseTransform_wide_Q a q n c vals sc ⟨.Q a, st⟩ hn hL ha

/-- C1 counterexample: the claim as stated fails, in two ways.  First, a
univariate month-end monthly series with values 1..6 (no missing values,
length divisible by the ratio 3) starting in February 2020 is not
reproduced by `inverse(forward(S))` with the quarter-start rule: the
forward pass pads the partially covered boundary quarters with missing
values, so the inverse returns a nine-month series starting in January
2020.  Second, even a perfectly aligned series (January..March 2020, one
whole `Q-SEP` quarter) is not reproduced with the quarter-end rule
`Q-SEP`: the inverse's `"S" not in freq_str` test sees the `S` of `SEP`
and skips the ratio-minus-one backward shift, so the reconstruction
starts two months late — the `Q-SEP` exclusion of the amended law is
forced by the code. -/
theorem C1_roundtrip_counterexample :
    ((mkMonthlySeries "values" 1 [1, 2, 3, 4, 5, 6] none).values.all
        (fun r => r.all (fun v => v.isSome)) = true ∧
    (mkMonthlySeries "values" 1 [1, 2, 3, 4, 5, 6] none).values.length =
      6 ∧
    (tsTransform (mkMonthlySeries "values" 1 [1, 2, 3, 4, 5, 6] none)
        ⟨.QS 1, false⟩).bind
      (fun w => tsInverseTransform w ⟨.QS 1, false⟩) ≠
      .ok (mkMonthlySeries "values" 1 [1, 2, 3, 4, 5, 6] none)) ∧
    (tsTransform (mkMonthlySeries "values" (3 * 0 + qOff (.Q 9)) [1, 2, 3]
        none) ⟨.Q 9, false⟩).bind
      (fun w => tsInverseTransform w ⟨.Q 9, false⟩) ≠
      .ok (mkMonthlySeries "values" (3 * 0 + qOff (.Q 9)) [1, 2, 3]
        none) := by
  refine ⟨⟨by decide, by decide, by decide⟩, by decide⟩

/-- C1 witness: the amended round-trip law at the documented scenario
(monthly values 1..9 over 2020-01..2020-09, rule quarter-start). -/
theorem C1_roundtrip_witness :
    (tsTransform
        (mkMonthlySeries "values" (3 * 0 + qOff (.QS 1))
          [1, 2, 3, 4, 5, 6, 7, 8, 9] none) ⟨.QS 1, false⟩).bind
      (fun w => tsInverseTransform w ⟨.QS 1, false⟩) =
      .ok (mkMonthlySeries "values" (3 * 0 + qOff (.QS 1))
        [1, 2, 3, 4, 5, 6, 7, 8, 9] none) :=
  C1_roundtrip_aligned (.QS 1) 1 (Or.inl rfl) 0 3 "values"
    [1, 2, 3, 4, 5, 6, 7, 8, 9] none false (by omega) (by decide)

/-- C2: the claim says the caller-facing forward transform accepts
multivariate series (looping over columns internally).  The code instead
rejects them: `ts_transform` — the per-series worker the public
`transform` dispatches to — calls `_verify_series` with the multivariate
check enabled, so every multivariate, datetime-indexed, deterministic
series is rejected with `MultivariateNotAllowed` (contradicting the
repository's own `test_multivariate_monthly_to_quarterly`). -/
theorem C2_forward_rejects_multivariate (s : TimeSeries) (p : MidasParams)
    (h1 : s.nSamples = 1) (h2 : s.hasDatetimeIndex = true)
    (h3 : 2 ≤ s.cols.length) :
    tsTransform s p = .error .multivariateNotAllowed := by
  have hm : 1 < s.cols.length := by omega
  simp [tsTransform, tsTransformTrace, verifySeries, h1, h2, hm]

/-- C2 witness: the two-component monthly series of the repository's
multivariate test is rejected by the forward worker. -/
theorem C2_forward_rejects_multivariate_witness :
    tsTransform
      { times := [monthEndTs 0, monthEndTs 1, monthEndTs 2],
        values := [[some 1, some 10], [some 2, some 11], [some 3, some 12]],
        cols := ["values", "other"], freq := .M, nSamples := 1,
        hasDatetimeIndex := true, static := none } ⟨.QS 1, false⟩ =
      .error .multivariateNotAllowed :=
  C2_forward_rejects_multivariate _ _ rfl rfl (by decide)

/-- C5: inverse start-time correction, evaluated at the failing input.
A wide series with quarter-end-anchored frequency `Q-SEP` (one row at
2020-09-30, three columns) should have its reconstructed start shifted
back by `ratio - 1 = 2` months to 2020-07-31, giving month-end timestamps
July..September 2020.  Because the code tests `"S" not in freq_str` and
`"Q-SEP"` contains an `S`, no shift is applied and the output timestamps
are September..November 2020. -/
theorem C5_qsep_shift_skipped :
    (tsInverseTransform
        { times := [monthEndTs 8], values := [[some 1, some 2, some 3]],
          cols := ["values_0", "values_1", "values_2"], freq := .Q 9,
          nSamples := 1, hasDatetimeIndex := true, static := none }
        ⟨.Q 9, false⟩).map (fun r => r.times) =
      .ok [Ts.cal 8 30, Ts.cal 9 31, Ts.cal 10 30] ∧
    (tsInverseTransform
        { times := [monthEndTs 8], values := [[some 1, some 2, some 3]],
          cols := ["values_0", "values_1", "values_2"], freq := .Q 9,
          nSamples := 1, hasDatetimeIndex := true, static := none }
        ⟨.Q 9, false⟩).map (fun r => r.times) ≠
      .ok [Ts.cal 6 31, Ts.cal 7 31, Ts.cal 8 30] := by
  refine ⟨by decide, by decide⟩

/-- C6: base-name recovery, evaluated at a failing input.  A wide series
with ten columns `values_0 .. values_9` (as the forward mapper produces
for any power-of-ten ratio) should invert to the base name `values`; the
code strips `len("_10") = 3` characters from `values_9` and returns
`value` instead. -/
theorem C6_name_truncated_at_ratio_ten :
    (tsInverseTransform
        { times := [monthEndTs 2],
          values := [[some 1, some 2, some 3, some 4, some 5, some 6,
            some 7, some 8, some 9, some 10]],
          cols := ["values_0", "values_1", "values_2", "values_3",
            "values_4", "values_5", "values_6", "values_7", "values_8",
            "values_9"],
          freq := .Q 12, nSamples := 1, hasDatetimeIndex := true,
          static := none } ⟨.Q 12, false⟩).map (fun r => r.cols) =
      .ok ["value"] ∧
    (tsInverseTransform
        { times := [monthEndTs 2],
          values := [[some 1, some 2, some 3, some 4, some 5, some 6,
            some 7, some 8, some 9, some 10]],
          cols := ["values_0", "values_1", "values_2", "values_3",
            "values_4", "values_5", "values_6", "values_7", "values_8",
            "values_9"],
          freq := .Q 12, nSamples := 1, hasDatetimeIndex := true,
          static := none } ⟨.Q 12, false⟩).map (fun r => r.cols) ≠
      .ok ["values"] := by
  refine ⟨by decide, by decide⟩

/-- C7: static-metadata handling, evaluated on the code.  The transformer
has no `drop_static_covariates` option (its fixed parameters are exactly
`_rule` and `_strip`), and the forward transform passes the series'
static-covariates object through unchanged: a univariate monthly series
with static covariates transforms into a three-column wide series whose
static covariates are the original object — neither dropped nor
replicated once per wide column. -/
theorem C7_static_covariates_passthrough :
    (tsTransform
        (mkMonthlySeries "values" 0 [1, 2, 3, 4, 5, 6, 7, 8, 9]
          (some [7])) ⟨.QS 1, false⟩).map
        (fun w => (w.cols, w.static)) =
      .ok (["values_0", "values_1", "values_2"], some [7]) := by
  decide

/-- C8 (amended): the inverse mapper performs no column-name consistency
validation and has no `WrongRatio` error: for every wide series passing
the sample/index checks whose frequency string contains a `Q`, it silently
produces an output series, deriving the single component name from the
last column name alone. -/
theorem C8_inverse_no_name_validation (w : TimeSeries) (p : MidasParams)
    (h1 : w.nSamples = 1) (h2 : w.hasDatetimeIndex = true)
    (hq : pyContainsChar (freqStr w.freq) 'Q' = true) :
    ∃ r, tsInverseTransform w p = .ok r ∧
      r.cols = [pyStripName (w.cols.getLastD "") w.cols.length] := by
  simp only [tsInverseTransform, verifySeries, h1, h2]
  norm_num
  rw [if_pos hq]
  exact ⟨_, rfl, rfl⟩

/-- C8 counterexample: a wide series whose column names do not form a
consistent single-component suffix family (`a_0`, `b_1`) is not rejected;
the inverse silently produces an output named `b`, so no `WrongRatio`
failure exists. -/
theorem C8_inconsistent_names_counterexample :
    (tsInverseTransform
        { times := [monthEndTs 2], values := [[some 1, some 2]],
          cols := ["a_0", "b_1"], freq := .Q 12, nSamples := 1,
          hasDatetimeIndex := true, static := none }
        ⟨.Q 12, false⟩).isOk = true ∧
    (tsInverseTransform
        { times := [monthEndTs 2], values := [[some 1, some 2]],
          cols := ["a_0", "b_1"], freq := .Q 12, nSamples := 1,
          hasDatetimeIndex := true, static := none }
        ⟨.Q 12, false⟩).map (fun r => r.cols) = .ok ["b"] := by
  refine ⟨by decide, by decide⟩

/-- C8 witness: the amended statement at the inconsistent-name input. -/
theorem C8_inverse_no_name_validation_witness :
    ∃ r,
      tsInverseTransform
          { times := [monthEndTs 2], values := [[some 1, some 2]],
            cols := ["a_0", "b_1"], freq := .Q 12, nSamples := 1,
            hasDatetimeIndex := true, static := none }
          ⟨.Q 12, false⟩ = .ok r ∧
        r.cols = [pyStripName (["a_0", "b_1"].getLastD "")
          (["a_0", "b_1"].length)] :=
  C8_inverse_no_name_validation _ _ rfl rfl (by decide)

/-- C9 (amended): whenever the downsampled index is not strictly shorter
than the canonical upsampled index — which covers a target frequency equal
to the source frequency — the forward transform fails with
`WrongDirection`; the error is signaled after the two resampling steps,
not before them. -/
theorem C9_direction_guard (s : TimeSeries) (p : MidasParams)
    (h1 : s.nSamples = 1) (h2 : s.hasDatetimeIndex = true)
    (h3 : s.cols.length ≤ 1)
    (hguard : ¬ (lowPeriodsOf p.rule s).length <
        (highPeriodsOf p.rule s).length) :
    tsTransform s p = .error .wrongDirection ∧
      (tsTransformTrace s p).2 =
        [.resampleDown, .resampleUp, .raiseWrongDirection] := by
  have hm : ¬ 1 < s.cols.length := by omega
  simp only [tsTransform, tsTransformTrace, verifySeries, h1, h2, hm]
  norm_num
  rw [if_neg hguard]
  exact ⟨rfl, rfl⟩

/-- C9 witness: a univariate quarter-end series transformed with the same
quarterly rule (the degenerate same-frequency case). -/
theorem C9_direction_guard_witness :
    tsTransform
        { times := [monthEndTs 2, monthEndTs 5, monthEndTs 8],
          values := [[some 1], [some 2], [some 3]], cols := ["v"],
          freq := .Q 12, nSamples := 1, hasDatetimeIndex := true,
          static := none } ⟨.Q 12, false⟩ = .error .wrongDirection ∧
      (tsTransformTrace
        { times := [monthEndTs 2, monthEndTs 5, monthEndTs 8],
          values := [[some 1], [some 2], [some 3]], cols := ["v"],
          freq := .Q 12, nSamples := 1, hasDatetimeIndex := true,
          static := none } ⟨.Q 12, false⟩).2 =
        [.resampleDown, .resampleUp, .raiseWrongDirection] :=
  C9_direction_guard _ _ rfl rfl (by decide) (by decide)

/-- C9 counterexample: the claim's ordering conjunct is false — at the
degenerate same-frequency input the `WrongDirection` failure is recorded
only after both resampling events, not before them. -/
theorem C9_error_after_resampling_counterexample :
    tsTransform
        { times := [monthEndTs 2, monthEndTs 5, monthEndTs 8],
          values := [[some 1], [some 2], [some 3]], cols := ["v"],
          freq := .Q 12, nSamples := 1, hasDatetimeIndex := true,
          static := none } ⟨.Q 12, false⟩ = .error .wrongDirection ∧
    raisedBeforeResampling
        (tsTransformTrace
          { times := [monthEndTs 2, monthEndTs 5, monthEndTs 8],
            values := [[some 1], [some 2], [some 3]], cols := ["v"],
            freq := .Q 12, nSamples := 1, hasDatetimeIndex := true,
            static := none } ⟨.Q 12, false⟩).2 = false := by
  refine ⟨by decide, by decide⟩

/-- C10: the inverse transform never reads its parameters — its result is
a function of the wide input series alone, for every series and every two
configurations. -/
theorem C10_inverse_independent_of_params (w : TimeSeries)
    (p1 p2 : MidasParams) :
    tsInverseTransform w p1 = tsInverseTransform w p2 := rfl

theorem headD_append_of_ne_nil {α : Type} (l1 l2 : List α) (d : α)
    (h : l1 ≠ []) : (l1 ++ l2).headD d = l1.headD d := by
  cases l1 with
  | nil => exact absurd rfl h
  | cons a t => rfl

theorem getLastD_append_of_ne_nil {α : Type} (l1 l2 : List α) (d : α)
    (h : l2 ≠ []) : (l1 ++ l2).getLastD d = l2.getLastD d := by
  rw [List.getLastD_eq_getLast?, List.getLastD_eq_getLast?,
    List.getLast?_append]
  obtain ⟨x, hx⟩ := Option.isSome_iff_exists.mp
    (List.getLast?_isSome.mpr h)
  rw [hx]
  rfl

/-- The number of days of the `k` months starting at month `m1`. -/
theorem monthSpan_eq_cumDays (m1 : Int) (k : Nat) :
    (((List.range k).map
        (fun (j : Nat) => (daysInMonth (m1 + (j : Int))).toNat)).sum : Int) =
      cumDays (m1 + (k : Int)) - cumDays m1 := by
  induction k with
  | zero => simp
  | succ k' ih =>
    rw [List.range_succ, List.map_append, List.sum_append]
    have hstep := cumDays_succ (m1 + (k' : Int))
    have hdim := daysInMonth_bounds (m1 + (k' : Int))
    have htn : (((daysInMonth (m1 + (k' : Int))).toNat : Int)) =
        daysInMonth (m1 + (k' : Int)) := by omega
    push_cast
    push_cast at ih
    rw [show m1 + ((k' : Int) + 1) = m1 + (k' : Int) + 1 from by ring]
    simp only [List.map_cons, List.map_nil, List.sum_cons, List.sum_nil]
    omega

theorem monthSpan_lower (m1 : Int) (k : Nat) :
    28 * (k : Int) ≤ cumDays (m1 + (k : Int)) - cumDays m1 := by
  induction k with
  | zero => simp
  | succ k' ih =>
    have hstep := cumDays_succ (m1 + (k' : Int))
    have hdim := daysInMonth_bounds (m1 + (k' : Int))
    push_cast
    rw [show m1 + ((k' : Int) + 1) = m1 + (k' : Int) + 1 from by ring]
    omega

theorem times_mkFullMonthsDaily_length (c : String) (m1 : Int) (k : Nat)
    (vals : List Int) (sc : Option (List Int)) :
    (mkFullMonthsDaily c m1 k vals sc).times.length =
      ((List.range k).map
        (fun (j : Nat) => (daysInMonth (m1 + (j : Int))).toNat)).sum := by
  unfold mkFullMonthsDaily
  rw [List.length_flatMap]
  congr 1
  refine List.map_congr_left fun j _ => ?_
  simp [Function.comp]

theorem headD_mkFullMonthsDaily (c : String) (m1 : Int) (k : Nat)
    (vals : List Int) (sc : Option (List Int)) (hk : 1 ≤ k) :
    (mkFullMonthsDaily c m1 k vals sc).times.headD (.lin 0) =
      Ts.cal m1 1 := by
  unfold mkFullMonthsDaily
  cases k with
  | zero => omega
  | succ j =>
    rw [List.range_succ_eq_map, List.flatMap_cons]
    simp only [Nat.cast_zero, add_zero]
    have hd := daysInMonth_bounds m1
    rw [headD_append_of_ne_nil _ _ _ (by
      intro hnil
      have := congrArg List.length hnil
      simp at this
      omega)]
    rw [headD_range_map _ _ (by omega)]
    norm_num

theorem getLastD_mkFullMonthsDaily (c : String) (m1 : Int) (k : Nat)
    (vals : List Int) (sc : Option (List Int)) (hk : 1 ≤ k) :
    (mkFullMonthsDaily c m1 k vals sc).times.getLastD (.lin 0) =
      monthEndTs (m1 + (k : Int) - 1) := by
  unfold mkFullMonthsDaily
  cases k with
  | zero => omega
  | succ j =>
    rw [List.range_succ, List.flatMap_append, List.flatMap_cons,
      List.flatMap_nil, List.append_nil]
    have hd := daysInMonth_bounds (m1 + (j : Int))
    rw [getLastD_append_of_ne_nil _ _ _ (by
      intro hnil
      have := congrArg List.length hnil
      simp at this
      omega)]
    rw [getLastD_range_map _ _ (by omega)]
    rw [monthEndTs]
    have harg : m1 + ((j + 1 : Nat) : Int) - 1 = m1 + (j : Int) := by
      push_cast
      omega
    rw [harg]
    congr 1
    have := daysInMonth_bounds (m1 + (j : Int))
    omega

/-- C4: ratio guard for daily-to-monthly conversion.  For a univariate
daily series covering exactly the `k` whole months starting at month `m1`,
the forward transform to the monthly rule fails with the non-integer-ratio
error exactly when the total day count is not divisible by the month
count, and succeeds exactly when it is divisible — so the failure depends
on which months the series spans, contrary to the claim's "regardless of
which month". -/
theorem C4_daily_to_monthly_ratio (c : String) (m1 : Int) (k : Nat)
    (vals : List Int) (sc : Option (List Int)) (st : Bool) (hk : 1 ≤ k)
    (hv : vals.length =
      ((List.range k).map
        (fun (j : Nat) => (daysInMonth (m1 + (j : Int))).toNat)).sum) :
    (tsTransform (mkFullMonthsDaily c m1 k vals sc) ⟨.M, st⟩ =
        .error .nonIntegerMultiple ↔ ¬ vals.length % k = 0) ∧
    ((tsTransform (mkFullMonthsDaily c m1 k vals sc) ⟨.M, st⟩).isOk =
        true ↔ vals.length % k = 0) := by
  have hD := monthSpan_eq_cumDays m1 k
  have hDlow := monthSpan_lower m1 k
  have hverify :
      verifySeries (mkFullMonthsDaily c m1 k vals sc) true = .ok () := by
    simp [verifySeries, mkFullMonthsDaily]
  have hhead := headD_mkFullMonthsDaily c m1 k vals sc hk
  have hlast := getLastD_mkFullMonthsDaily c m1 k vals sc hk
  have htlen := times_mkFullMonthsDaily_length c m1 k vals sc
  have hlows : lowPeriodsOf .M (mkFullMonthsDaily c m1 k vals sc) =
      intRange m1 (m1 + (k : Int) - 1) := by
    unfold lowPeriodsOf
    rw [hhead, hlast]
    simp only [periodIdx, monthOf_cal, monthOf_monthEndTs]
  have hcs := cumDays_succ (m1 + (k : Int) - 1)
  rw [show m1 + (k : Int) - 1 + 1 = m1 + (k : Int) from by ring] at hcs
  have hhighs : highPeriodsOf .M (mkFullMonthsDaily c m1 k vals sc) =
      intRange (cumDays m1) (cumDays (m1 + (k : Int)) - 1) := by
    unfold highPeriodsOf
    rw [hhead, hlast,
      show (mkFullMonthsDaily c m1 k vals sc).freq = Freq.D from rfl]
    simp only [periodIdx, monthOf_cal, monthOf_monthEndTs, periodStartTs,
      periodEndTs, monthEndTs, Ts.dayOf]
    congr 1
    · omega
    · omega
  have hlowlen :
      (lowPeriodsOf .M (mkFullMonthsDaily c m1 k vals sc)).length = k := by
    rw [hlows, length_intRange]
    omega
  have hhighlen :
      (highPeriodsOf .M (mkFullMonthsDaily c m1 k vals sc)).length =
        vals.length := by
    rw [hhighs, length_intRange]
    omega
  have hguard :
      (lowPeriodsOf .M (mkFullMonthsDaily c m1 k vals sc)).length <
        (highPeriodsOf .M (mkFullMonthsDaily c m1 k vals sc)).length := by
    rw [hlowlen, hhighlen]
    omega
  have hclen :
      (canonTimesOf .M (mkFullMonthsDaily c m1 k vals sc)).length =
        vals.length := by
    unfold canonTimesOf
    rw [List.length_map, hhighlen]
  have hnc : ¬ ((mkFullMonthsDaily c m1 k vals sc).times.length <
      (canonTimesOf .M (mkFullMonthsDaily c m1 k vals sc)).length) := by
    rw [htlen, hclen]
    omega
  have hexpand :
      expandRows (mkFullMonthsDaily c m1 k vals sc)
          (canonTimesOf .M (mkFullMonthsDaily c m1 k vals sc)) =
        (mkFullMonthsDaily c m1 k vals sc).values := by
    unfold expandRows
    rw [if_neg hnc]
  have hcols : (mkFullMonthsDaily c m1 k vals sc).cols = [c] := rfl
  have hvals : (mkFullMonthsDaily c m1 k vals sc).values =
      vals.map (fun v => [some v]) := rfl
  by_cases hmod : vals.length % k = 0
  · have hnc2 : ¬ (k = 0 ∨ ¬ vals.length % k = 0) := by
      push_neg
      exact ⟨by omega, hmod⟩
    have hcd : ∃ w0, createMidasDf (vals.map fun v => [some v]) [c] k =
        .ok w0 := by
      unfold createMidasDf
      rw [List.length_map, if_neg hnc2]
      exact ⟨_, rfl⟩
    obtain ⟨w0, hw0⟩ := hcd
    have hok : ∃ w, tsTransform (mkFullMonthsDaily c m1 k vals sc)
        ⟨.M, st⟩ = .ok w := by
      simp only [tsTransform, tsTransformTrace, hverify]
      rw [if_pos hguard, hexpand, hvals, hcols, hlowlen, hw0]
      exact ⟨_, rfl⟩
    obtain ⟨w, hw⟩ := hok
    rw [hw]
    exact ⟨⟨fun h => Except.noConfusion h, fun h => absurd hmod h⟩,
      ⟨fun _ => hmod, fun _ => rfl⟩⟩
  · have hc2 : (k = 0 ∨ ¬ vals.length % k = 0) := Or.inr hmod
    have hcd : createMidasDf (vals.map fun v => [some v]) [c] k =
        .error .nonIntegerMultiple := by
      unfold createMidasDf
      rw [List.length_map, if_pos hc2]
    have herr : tsTransform (mkFullMonthsDaily c m1 k vals sc) ⟨.M, st⟩ =
        .error .nonIntegerMultiple := by
      simp only [tsTransform, tsTransformTrace, hverify]
      rw [if_pos hguard, hexpand, hvals, hcols, hlowlen, hcd]
    rw [herr]
    exact ⟨⟨fun _ => hmod, fun _ => rfl⟩,
      ⟨fun h => Bool.noConfusion h, fun h => absurd h hmod⟩⟩

/-- C4 counterexample: the daily series covering January and February 2020
(60 values, 2 months, 60 divisible by 2) converts to monthly successfully,
so daily-to-monthly does not always fail. -/
theorem C4_daily_to_monthly_counterexample :
    (tsTransform
        (mkFullMonthsDaily "v" 0 2 (List.replicate 60 (0 : Int)) none)
        ⟨.M, false⟩).isOk = true := by
  decide

/-- C4 witness: the daily series covering January through March 2020
(91 values, 3 months) satisfies the amended statement's hypotheses, and
since 91 is not divisible by 3 the transform fails with the
non-integer-ratio error. -/
theorem C4_daily_to_monthly_ratio_witness :
    (1 ≤ 3 ∧
      (List.replicate 91 (0 : Int)).length =
        ((List.range 3).map
          (fun (j : Nat) => (daysInMonth ((0 : Int) + (j : Int))).toNat)).sum) ∧
    (tsTransform
        (mkFullMonthsDaily "v" 0 3 (List.replicate 91 (0 : Int)) none)
        ⟨.M, false⟩ = .error .nonIntegerMultiple ↔
      ¬ (List.replicate 91 (0 : Int)).length % 3 = 0) :=
  ⟨⟨by decide, by decide⟩,
    (C4_daily_to_monthly_ratio "v" 0 3 (List.replicate 91 (0 : Int)) none
      false (by decide) (by decide)).1⟩
